import Mathlib

/-!
Verification development for the LSP2025-drawer painting client.

The Python sources (`tool.py`, `main.py`, `test_token.py`) are shallowly
embedded below: bytes are `Nat` (0..255), byte strings are `List Nat`,
Python dicts are association lists with first-match lookup, floats are `ℚ`,
and monotonic timestamps are `ℚ`.
-/

/-! ### Association-list dictionaries

Python `dict` access `d.get(k)` / `d[k] = v` is modelled with an
association list: `alookup` returns the first binding of a key,
`dinsert` overwrites an existing binding in place or appends a new one,
`dremove` deletes a binding, `dupdate` mutates the value stored under a
key (a no-op when the key is absent, mirroring code paths that only ever
touch keys they created). -/
def alookup {κ β : Type} [DecidableEq κ] (k : κ) : List (κ × β) → Option β
  | [] => none
  | (a, b) :: es => if k = a then some b else alookup k es

def dinsert {κ β : Type} [DecidableEq κ] (k : κ) (v : β) : List (κ × β) → List (κ × β)
  | [] => [(k, v)]
  | (a, b) :: es => if k = a then (a, v) :: es else (a, b) :: dinsert k v es

def dremove {κ β : Type} [DecidableEq κ] (k : κ) : List (κ × β) → List (κ × β)
  | [] => []
  | (a, b) :: es => if k = a then es else (a, b) :: dremove k es

def dupdate {κ β : Type} [DecidableEq κ] (k : κ) (f : β → β) : List (κ × β) → List (κ × β)
  | [] => []
  | (a, b) :: es => if k = a then (a, f b) :: es else (a, b) :: dupdate k f es

/-! ### Little-endian byte encoding

`int.to_bytes(n, 'little')` and `int.from_bytes(_, 'little')`. -/
def toBytesLE : Nat → Nat → List Nat
  | 0, _ => []
  | n + 1, v => v % 256 :: toBytesLE n (v / 256)

def fromBytesLE : List Nat → Nat
  | [] => 0
  | b :: bs => b + 256 * fromBytesLE bs

/-! ### Wire codec: paint frames (tool.py `paint`, lines 120-141)

`paint` builds a 31-byte packet: opcode 0xfe, x (2 LE), y (2 LE), r, g, b,
uid (3 LE), token (16 raw bytes from the UUID), paint_id (4 LE), and appends
it to the batching queue. -/
def paintFrame (uid : Nat) (token : List Nat) (r g b x y paint_id : Nat) : List Nat :=
  0xfe :: (toBytesLE 2 x ++ toBytesLE 2 y ++ [r, g, b] ++ toBytesLE 3 uid
    ++ token ++ toBytesLE 4 paint_id)

/-- Modelled from the spec: the repository has no decoder for client-origin
0xfe frames (the receiver handles only 0xfa/0xff/0xfc), so the field
extraction follows the spec's layout table for a 31-octet paint frame:
opcode 0xfe, x (2 LE), y (2 LE), r, g, b, uid (3 LE), token (16),
paint_id (4 LE). Returns (uid, x, y, r, g, b, paint_id). -/
def decodePaintFrame (f : List Nat) : Option (Nat × Nat × Nat × Nat × Nat × Nat × Nat) :=
  match f with
  | op :: x0 :: x1 :: y0 :: y1 :: r :: g :: b :: u0 :: u1 :: u2 :: rest =>
    if op = 0xfe ∧ rest.length = 20 then
      some (fromBytesLE [u0, u1, u2], fromBytesLE [x0, x1], fromBytesLE [y0, y1],
            r, g, b, fromBytesLE (rest.drop 16))
    else none
  | _ => none

/-! ### Batcher: the global paint queue (tool.py lines 17-38, 143-175)

`append_to_queue` appends one frame to `paint_queue` and adds its size to
`total_size`; `get_merged_data` concatenates the whole queue (the `merged`
bytearray of `total_size` bytes) and clears it; `send_paint_data` then sends
the merged data as one message when it fits in `MAX_PACKET = 32000` bytes
and otherwise slices it at fixed 32000-byte offsets
(`range(0, len(merged_data), MAX_PACKET)`), one message per slice. -/
def get_merged_data (paint_queue : List (List Nat)) : List Nat := paint_queue.join

def splitChunks (m : List Nat) : List (List Nat) :=
  if h : m = [] then [] else m.take 32000 :: splitChunks (m.drop 32000)
termination_by m.length
decreasing_by
  simp only [List.length_drop]
  have hm : 0 < m.length := List.length_pos.mpr h
  omega

/-- One tick of tool.py `send_paint_data` with a non-empty queue: the list of
binary messages passed to `ws.send`, in order. An empty merged buffer is
falsy in Python (`if merged_data:`) and sends nothing. -/
def sentMessages (paint_queue : List (List Nat)) : List (List Nat) :=
  let merged := get_merged_data paint_queue
  if merged = [] then []
  else if merged.length ≤ 32000 then [merged]
  else splitChunks merged

/-! ### Canvas snapshot parsing (tool.py `fetch_board_snapshot`, lines 296-341)

After the HTTP fetch the body is parsed with `max_len = len(data) - 2`;
for each `y in range(600)`, `row_base = y * 1000 * 3`, and for each
`x in range(1000)`, `idx = row_base + x * 3`; when `idx + 2 > max_len` the
inner loop `break`s (aborting only the current row), otherwise
`board[(x, y)] = (data[idx], data[idx+1], data[idx+2])`. -/
def boardRow (data : List Nat) (y : Nat) : List ((Nat × Nat) × (Nat × Nat × Nat)) :=
  ((List.range 1000).takeWhile fun x =>
      decide (y * 1000 * 3 + x * 3 + 2 ≤ data.length - 2)).map fun x =>
    ((x, y), (data.getD (y * 1000 * 3 + x * 3) 0, data.getD (y * 1000 * 3 + x * 3 + 1) 0,
      data.getD (y * 1000 * 3 + x * 3 + 2) 0))

def fetch_board_snapshot (data : List Nat) : List ((Nat × Nat) × (Nat × Nat × Nat)) :=
  (List.range 600).bind (boardRow data)

/-! ### Target composer (tool.py lines 238-293, 344-358, 522-570)

Pixel values are the RGBA 4-tuples produced by `Image.convert('RGBA')` in
`load_all_images` (the `len(p) >= 4` branch of `build_target_map`; the
other branches handle pixel formats that the loader never produces).
Canvas coordinates are `Int` so that negative layer origins behave as in
the source. -/
abbrev RGBA := Nat × Nat × Nat × Nat

abbrev RGB := Nat × Nat × Nat

abbrev Pos := Int × Int

def gridCoords (w h : Nat) : List (Nat × Nat) :=
  (List.range h).bind fun y => (List.range w).map fun x => (x, y)

/-- tool.py `build_target_map`: skip alpha == 0 always; skip 0 < alpha < 255
when `ignore_semitransparent` is set in the passed config; keep only pixels
whose absolute coordinate lies in the 1000x600 canvas. -/
def build_target_map (pixels : List RGBA) (width height : Nat) (start_x start_y : Int)
    (ignore_semi : Bool) : List (Pos × RGB) :=
  (gridCoords width height).filterMap fun xy =>
    match pixels.get? (xy.2 * width + xy.1) with
    | none => none
    | some (r, g, b, a) =>
      if a = 0 then none
      else if ignore_semi ∧ 0 < a ∧ a < 255 then none
      else
        if 0 ≤ start_x + (xy.1 : Int) ∧ start_x + (xy.1 : Int) < 1000 ∧
            0 ≤ start_y + (xy.2 : Int) ∧ start_y + (xy.2 : Int) < 600 then
          some ((start_x + (xy.1 : Int), start_y + (xy.2 : Int)), (r, g, b))
        else none

/-! Stable sorts. Python's `sorted` is stable; `sorted(key=.., reverse=True)`
keeps the original relative order of equal keys. Insertion sort from the
left with strict comparison is the same stable order. -/
def insertAsc {α : Type} (key : α → ℚ) (x : α) : List α → List α
  | [] => [x]
  | y :: ys => if key x < key y then x :: y :: ys else y :: insertAsc key x ys

def sortAsc {α : Type} (key : α → ℚ) (l : List α) : List α :=
  l.foldl (fun acc x => insertAsc key x acc) []

def insertDesc {α : Type} (key : α → ℚ) (x : α) : List α → List α
  | [] => [x]
  | y :: ys => if key y < key x then x :: y :: ys else y :: insertDesc key x ys

def sortDesc {α : Type} (key : α → ℚ) (l : List α) : List α :=
  l.foldl (fun acc x => insertDesc key x acc) []

def lcg (s : Nat) : Nat := (s * 1103515245 + 12345) % 2147483648

def lcgStream (seed : Nat) : Nat → List Nat
  | 0 => []
  | n + 1 => lcg seed :: lcgStream (lcg seed) n

/-- Modelled from the spec: `get_draw_order`'s 'random' branch calls
`random.Random(width * 10007 + height * 97).shuffle(coords)` — a
deterministic, seed-reproducible permutation whose exact order comes from
the Python-stdlib Mersenne Twister, which is not repository code. It is
modelled as a stable sort of `coords` by an LCG key stream derived from the
same seed: likewise a deterministic permutation reproducible from
(width, height). Every property proved below uses only that it permutes
`coords`. -/
def shuffleCoords (seed : Nat) (l : List (Nat × Nat)) : List (Nat × Nat) :=
  (sortAsc (fun pk => (pk.2 : ℚ)) (l.zip (lcgStream seed l.length))).map Prod.fst

inductive DrawMode : Type
  | horizontal
  | concentric
  | random
deriving DecidableEq

/-- Chebyshev distance from the layer centre ((w-1)/2, (h-1)/2), the
'concentric' sort key. -/
def chebKey (w h : Nat) (xy : Nat × Nat) : ℚ :=
  max |(xy.1 : ℚ) - ((w : ℚ) - 1) / 2| |(xy.2 : ℚ) - ((h : ℚ) - 1) / 2|

/-- tool.py `get_draw_order` (lines 344-358): horizontal is row-major
order, concentric sorts by Chebyshev distance from the centre (Python's
stable sort), random shuffles with a seed derived from the size. -/
def get_draw_order (m : DrawMode) (w h : Nat) : List (Nat × Nat) :=
  match m with
  | .horizontal => gridCoords w h
  | .concentric => sortAsc (chebKey w h) (gridCoords w h)
  | .random => shuffleCoords (w * 10007 + h * 97) (gridCoords w h)

/-- One enabled entry of `load_all_images`' result: pixel data, size,
origin, draw mode, weight and the originating config index. -/
structure ImageData : Type where
  pixels : List RGBA
  width : Nat
  height : Nat
  start_x : Int
  start_y : Int
  draw_mode : DrawMode
  weight : ℚ
  config_index : Nat

/-- The three values `merge_target_maps` returns: the combined target map,
`positions_by_mode` (held as one list per draw mode), and
`pos_to_image_idx`. -/
structure MergeResult : Type where
  combined : List (Pos × RGB)
  horiz : List Pos
  conc : List Pos
  rand : List Pos
  posIdx : List (Pos × Nat)

def emptyMerge : MergeResult := ⟨[], [], [], [], []⟩

def absPos (img : ImageData) (xy : Nat × Nat) : Pos :=
  (img.start_x + (xy.1 : Int), img.start_y + (xy.2 : Int))

/-- tool.py `merge_target_maps` calls `build_target_map(pixels, width,
height, start_x, start_y)` with no config argument, so `ignore_semi` is
False on this path. -/
def btmOf (img : ImageData) : List (Pos × RGB) :=
  build_target_map img.pixels img.width img.height img.start_x img.start_y false

/-- Body of the inner loop of `merge_target_maps` (tool.py lines 560-568):
a position is adopted only if the layer's own target map claims it and no
higher-priority layer has claimed it yet; adoption appends it to the
combined map, to `positions_by_mode[draw_mode]`, and to
`pos_to_image_idx`. -/
def layerStep (tm : List (Pos × RGB)) (img : ImageData) (acc : MergeResult)
    (xy : Nat × Nat) : MergeResult :=
  match alookup (absPos img xy) tm with
  | none => acc
  | some c =>
    match alookup (absPos img xy) acc.combined with
    | some _ => acc
    | none =>
      { combined := acc.combined ++ [(absPos img xy, c)]
        horiz := acc.horiz ++ (if img.draw_mode = DrawMode.horizontal then [absPos img xy] else [])
        conc := acc.conc ++ (if img.draw_mode = DrawMode.concentric then [absPos img xy] else [])
        rand := acc.rand ++ (if img.draw_mode = DrawMode.random then [absPos img xy] else [])
        posIdx := acc.posIdx ++ [(absPos img xy, img.config_index)] }

def addLayer (acc : MergeResult) (img : ImageData) : MergeResult :=
  (get_draw_order img.draw_mode img.width img.height).foldl (layerStep (btmOf img) img) acc

/-- tool.py `merge_target_maps`: layers sorted by weight descending
(stable), then folded in that order. -/
def merge_target_maps (images : List ImageData) : MergeResult :=
  (sortDesc (fun i => i.weight) images).foldl addLayer emptyMerge

/-- main.py lines 649-653: the scan sequence concatenates
`positions_by_mode` in the fixed order horizontal, concentric, random. -/
def targetPositions (images : List ImageData) : List Pos :=
  (merge_target_maps images).horiz ++ (merge_target_maps images).conc ++
    (merge_target_maps images).rand

def modeList (m : DrawMode) (r : MergeResult) : List Pos :=
  match m with
  | .horizontal => r.horiz
  | .concentric => r.conc
  | .random => r.rand

/-! ### Scheduler and receiver state (main.py handle_websocket)

The mutable structures the cited code touches: `token_states` (per-uid
last_success / fail_count / invalid_count), `active_tasks`
(paint_id -> task record), `pos_locks`, `board_state`, the paint queue,
`user_last_snapshot` and the shared `stats` counters. Monotonic time and
cooldowns are `ℚ`. -/
structure TokState : Type where
  last_success : ℚ
  fail_count : Nat
  invalid_count : Nat

structure UserCred : Type where
  uid : Nat
  token : List Nat

structure TaskRec : Type where
  pos : Pos
  color : RGB
  uid : Nat
  time : ℚ

structure SchedState : Type where
  token_states : List (Nat × TokState)
  active_tasks : List (Nat × TaskRec)
  pos_locks : List (Pos × ℚ)
  board : List (Pos × RGB)
  paint_queue : List (List Nat)
  snapshots : List (Nat × List (Pos × RGB))
  stats_sent : Nat
  stats_success : Nat
  global_paint_id : Nat

/-- main.py lines 1877-1882: a credential is ready when
`now - last_success >= user_cooldown_seconds`. Every configured user has an
entry in `token_states`; an absent uid is treated as not ready. -/
def ready_tokens (users : List UserCred) (states : List (Nat × TokState))
    (now cd : ℚ) : List UserCred :=
  users.filter fun u =>
    match alookup u.uid states with
    | some st => decide (cd ≤ now - st.last_success)
    | none => false

/-- main.py line 1885: the ready list is sorted by ascending last_success
(most-rested first) before credentials are popped from its front. -/
def ready_sorted (users : List UserCred) (states : List (Nat × TokState))
    (now cd : ℚ) : List UserCred :=
  sortAsc
    (fun u =>
      match alookup u.uid states with
      | some st => st.last_success
      | none => 0)
    (ready_tokens users states now cd)

/-- main.py lines 1934-1966, one assignment: allocate the global paint id
(mod 2^32), record the active task, enqueue the 31-byte frame via
`tool.paint` (in-canvas coordinates are nonnegative, hence `Int.toNat`),
start the credential's cooldown by setting `last_success := now`, lock the
position until `now + cooldown`, and bump both `stats['sent']` and
`stats['success']`. -/
def assignStep (s : SchedState) (user : UserCred) (pos : Pos) (color : RGB)
    (now cd : ℚ) : SchedState :=
  { s with
    global_paint_id := (s.global_paint_id + 1) % 4294967296
    active_tasks := dinsert s.global_paint_id ⟨pos, color, user.uid, now⟩ s.active_tasks
    paint_queue := s.paint_queue ++
      [paintFrame user.uid user.token color.1 color.2.1 color.2.2
        pos.1.toNat pos.2.toNat s.global_paint_id]
    token_states := dupdate user.uid (fun st => { st with last_success := now })
      s.token_states
    pos_locks := dinsert pos (now + cd) s.pos_locks
    stats_sent := s.stats_sent + 1
    stats_success := s.stats_success + 1 }

/-- OrderedDict eviction in the receiver: keep at most the 100 most recent
entries (`while len(snap) > SNAPSHOT_SIZE: snap.popitem(last=False)`). -/
def snapTrim (l : List (Pos × RGB)) : List (Pos × RGB) := l.drop (l.length - 100)

/-- main.py lines 1082-1114, the 0xff paint-result handler for status 0xef
(success): when the paint_id matches an active task it resets the
credential's fail/invalid counters, updates the per-user snapshot,
optimistically writes the board state and drops the task record. The
shared `stats` dict is untouched (the comment at line 1094: success was
already counted at send time). -/
def handleSuccessResult (s : SchedState) (paint_id : Nat) : SchedState :=
  match alookup paint_id s.active_tasks with
  | none => s
  | some task =>
    { s with
      token_states := dupdate task.uid
        (fun st => { st with fail_count := 0, invalid_count := 0 }) s.token_states
      snapshots :=
        match alookup task.uid s.snapshots with
        | some snap => dupdate task.uid (fun _ => snapTrim (dinsert task.pos task.color snap))
            s.snapshots
        | none => s.snapshots ++ [(task.uid, snapTrim (dinsert task.pos task.color []))]
      board := dinsert task.pos task.color s.board
      active_tasks := dremove paint_id s.active_tasks }

/-- main.py lines 1905-1911: the per-iteration scan budget. -/
def max_steps (total ready_count : Nat) : Nat :=
  if 50 < ready_count then min total (ready_count * 50) else min total (ready_count * 20)

/-- main.py lines 1913-1967, the scan loop: while credentials remain and
the budget allows, examine `target_positions[(start_cursor + steps) %
total]`; skip positions without a target color, positions whose board
color already matches, and positions under an unexpired lock (Python
truthiness: a 0.0 deadline counts as no lock); otherwise pop the
most-rested credential and assign. Returns the final state, the final
`steps` counter, and the list of examined indices. -/
def scanLoop (positions : List Pos) (tmap : List (Pos × RGB)) (now cd : ℚ)
    (start : Nat) :
    Nat → Nat → List UserCred → SchedState → SchedState × Nat × List Nat
  | 0, steps, _, s => (s, steps, [])
  | budget + 1, steps, ready, s =>
    match ready with
    | [] => (s, steps, [])
    | user :: rest =>
      let idx := (start + steps) % positions.length
      let pos := positions.getD idx (0, 0)
      let res :=
        match alookup pos tmap with
        | none => scanLoop positions tmap now cd start budget (steps + 1) (user :: rest) s
        | some tc =>
          if alookup pos s.board = some tc then
            scanLoop positions tmap now cd start budget (steps + 1) (user :: rest) s
          else
            match alookup pos s.pos_locks with
            | some t =>
              if t ≠ 0 ∧ now < t then
                scanLoop positions tmap now cd start budget (steps + 1) (user :: rest) s
              else
                scanLoop positions tmap now cd start budget (steps + 1) rest
                  (assignStep s user pos tc now cd)
            | none =>
              scanLoop positions tmap now cd start budget (steps + 1) rest
                (assignStep s user pos tc now cd)
      (res.1, res.2.1, idx :: res.2.2)

/-- main.py lines 1897-1974: one scheduler iteration over a non-empty
target list scans from the cursor with budget `max_steps` and then
advances the cursor by the number of scanned steps, modulo the sequence
length. Returns the new state and the new `scan_cursor`. -/
def schedulerIteration (positions : List Pos) (tmap : List (Pos × RGB))
    (now cd : ℚ) (cursor : Nat) (ready : List UserCred) (s : SchedState) :
    SchedState × Nat :=
  if 0 < positions.length then
    let r := scanLoop positions tmap now cd cursor
      (max_steps positions.length ready.length) 0 ready s
    (r.1, (cursor + r.2.1) % positions.length)
  else (s, cursor)

/-- A one-pixel layer whose only pixel is semi-transparent (alpha 128). -/
def semiLayer : ImageData :=
  { pixels := [(1, 2, 3, 128)], width := 1, height := 1, start_x := 0, start_y := 0,
    draw_mode := DrawMode.horizontal, weight := 1, config_index := 0 }

/-- A one-pixel opaque layer at (0,0), weight 2, concentric draw order. -/
def concA2 : ImageData :=
  { pixels := [(10, 20, 30, 255)], width := 1, height := 1, start_x := 0, start_y := 0,
    draw_mode := DrawMode.concentric, weight := 2, config_index := 0 }

/-- A one-pixel opaque layer at (1,0), weight 1, horizontal draw order. -/
def horizB1 : ImageData :=
  { pixels := [(40, 50, 60, 255)], width := 1, height := 1, start_x := 1, start_y := 0,
    draw_mode := DrawMode.horizontal, weight := 1, config_index := 1 }

/-- A one-pixel opaque layer at (0,0), weight 2, horizontal draw order. -/
def layerA2 : ImageData :=
  { pixels := [(9, 9, 9, 255)], width := 1, height := 1, start_x := 0, start_y := 0,
    draw_mode := DrawMode.horizontal, weight := 2, config_index := 0 }

/-- A one-pixel opaque layer also at (0,0), weight 1, horizontal draw order. -/
def layerB1 : ImageData :=
  { pixels := [(7, 7, 7, 255)], width := 1, height := 1, start_x := 0, start_y := 0,
    draw_mode := DrawMode.horizontal, weight := 1, config_index := 1 }

/-! ### Estimator (test_token.py)

`run_test_phase` (lines 415-432, 540-626): sampling cadence, steady-state
detection; `calculate_enemy_tokens` (lines 298-363): opposing-token
estimate. Percent completion values and rates are `ℚ`. -/
def frame_interval (user_cd : ℚ) : ℚ := max (1 / 2) (user_cd * (1 / 5))

def steady_window_frames (fi : ℚ) : Nat := max 10 (Int.toNat ⌊(30 : ℚ) / fi⌋)

def min_frames_before_check (fi : ℚ) : Nat := max 20 (Int.toNat ⌊(60 : ℚ) / fi⌋)

def max_timeout (user_cd : ℚ) : ℚ := max 180 (min 600 (user_cd * 20))

def meanQ (l : List ℚ) : ℚ := l.sum / l.length

def varianceQ (l : List ℚ) : ℚ := ((l.map fun x => (x - meanQ l) ^ 2).sum) / l.length

/-- The CV threshold that relaxes with mean occupancy (percent scale):
30% below 40%, 35% in [40%, 70%), 40% at or above 70%. -/
def volatility_threshold (avg : ℚ) : ℚ :=
  if avg < 40 then 30 / 100 else if avg < 70 then 35 / 100 else 40 / 100

/-- `volatility_ok` (lines 556-579): needs at least 5 recent frames and a
mean above 1; the code compares `sqrt(variance) / avg < threshold`, which
for avg > 0 is equivalent to the square-root-free comparison
`variance < (threshold * avg)^2` used here. -/
def volatilityOk (recent : List ℚ) : Bool :=
  if 5 ≤ recent.length then
    if 1 < meanQ recent then
      decide (varianceQ recent < (volatility_threshold (meanQ recent) * meanQ recent) ^ 2)
    else false
  else false

def slopeNum (recent : List ℚ) : ℚ :=
  (((List.range recent.length).zip recent).map fun p =>
    ((p.1 : ℚ) - (((List.range recent.length).map fun i => (i : ℚ)).sum / recent.length))
      * (p.2 - meanQ recent)).sum

def slopeDen (recent : List ℚ) : ℚ :=
  ((List.range recent.length).map fun i =>
    ((i : ℚ) - (((List.range recent.length).map fun j => (j : ℚ)).sum / recent.length)) ^ 2).sum

/-- `has_trend` (lines 581-596): computed only with at least 5 recent
frames, mean above 1, at least 10 samples and a positive denominator; a
clear trend means `|slope| > 0.5` percentage points per frame. -/
def hasTrend (recent : List ℚ) : Bool :=
  if 5 ≤ recent.length then
    if 1 < meanQ recent then
      if 10 ≤ recent.length then
        if 0 < slopeDen recent then
          decide ((1 : ℚ) / 2 < |slopeNum recent / slopeDen recent|)
        else false
      else false
    else false
  else false

/-- The steady-state decision for one new frame (lines 598-618): not before
`min_frames_before_check` samples; then steady iff the running maximum has
not advanced for `steady_window_frames` frames AND (the CV check passes OR
no clear trend is present). `recent` is the last
`min(steady_window_frames, len(frames))` completions. -/
def steadyDecision (minF window : Nat) (frames : List ℚ)
    (frame_idx maxFrame : Nat) : Bool :=
  let recent := frames.drop (frames.length - min window frames.length)
  if frame_idx < minF then false
  else decide (window ≤ frame_idx - maxFrame) &&
    (volatilityOk recent || !hasTrend recent)

/-- A 40-frame occupancy trace: 29 frames at 0%, the maximum 90% reached at
frame 30, then ten frames oscillating in a palindrome between 10% and 90%
(mean 58%, CV ≈ 0.68, zero regression slope). -/
def oscFrames : List ℚ :=
  List.replicate 29 0 ++ [90, 90, 10, 90, 10, 90, 90, 10, 90, 10, 90]

/-- test_token.py `calculate_enemy_tokens` result: the opposing effective
rate and the four interpretations of the opposing token count;
`n_scan_strategy = none` models the `float('inf')` branch. -/
structure EnemyEstimate : Type where
  effective_rate : ℚ
  n_same_efficiency : ℚ
  n_high_efficiency : ℚ
  n_low_efficiency : ℚ
  n_scan_strategy : Option ℚ

/-- test_token.py lines 298-363. Returns None unless 0.01 < p_me < 0.99;
otherwise the effective opposing rate N·η·(1−p)/p and the four divisions
by the assumed efficiencies, with the guards of the source. -/
def calculate_enemy_tokens (p_me user_cd num_my_tokens enemy_area overlap_area
    my_efficiency : ℚ) : Option EnemyEstimate :=
  if p_me ≤ 1 / 100 ∨ 99 / 100 ≤ p_me then none
  else
    let effective_enemy_rate := num_my_tokens * my_efficiency * (1 - p_me) / p_me
    let n_same := if 0 < my_efficiency then effective_enemy_rate / my_efficiency
      else effective_enemy_rate
    let n_high := effective_enemy_rate / 1
    let n_low := effective_enemy_rate / (1 / 2)
    let area_ratio := if 0 < enemy_area then overlap_area / enemy_area else 1
    let effective_scan_efficiency := my_efficiency * area_ratio
    let n_scan := if 0 < effective_scan_efficiency then
      some (effective_enemy_rate / effective_scan_efficiency) else none
    some ⟨effective_enemy_rate, n_same, n_high, n_low, n_scan⟩

/-! ### Theorems -/

theorem alookup_append_left {κ β : Type} [DecidableEq κ] (k : κ) (v : β)
    (l₁ l₂ : List (κ × β)) (h : alookup k l₁ = some v) :
    alookup k (l₁ ++ l₂) = some v := by
  induction l₁ with
  | nil => simp [alookup] at h
  | cons e es ih =>
    obtain ⟨a, b⟩ := e
    by_cases hk : k = a
    · simp only [alookup, List.cons_append, if_pos hk] at h ⊢
      exact h
    · simp only [alookup, List.cons_append, if_neg hk] at h ⊢
      exact ih h

theorem alookup_append_right {κ β : Type} [DecidableEq κ] (k : κ)
    (l₁ l₂ : List (κ × β)) (h : alookup k l₁ = none) :
    alookup k (l₁ ++ l₂) = alookup k l₂ := by
  induction l₁ with
  | nil => simp
  | cons e es ih =>
    obtain ⟨a, b⟩ := e
    by_cases hk : k = a
    · simp [alookup, if_pos hk] at h
    · simp only [alookup, List.cons_append, if_neg hk] at h ⊢
      exact ih h

theorem alookup_singleton_self {κ β : Type} [DecidableEq κ] (k : κ) (v : β) :
    alookup k [(k, v)] = some v := by simp [alookup]

theorem alookup_singleton_ne {κ β : Type} [DecidableEq κ] {k a : κ} (v : β)
    (h : k ≠ a) : alookup k [(a, v)] = none := by simp [alookup, h]

theorem alookup_mem {κ β : Type} [DecidableEq κ] {k : κ} {v : β}
    {l : List (κ × β)} (h : alookup k l = some v) : (k, v) ∈ l := by
  induction l with
  | nil => simp [alookup] at h
  | cons e es ih =>
    obtain ⟨a, b⟩ := e
    by_cases hk : k = a
    · simp only [alookup, if_pos hk] at h
      subst hk
      obtain rfl := Option.some.inj h
      exact List.mem_cons_self _ _
    · simp only [alookup, if_neg hk] at h
      exact List.mem_cons_of_mem _ (ih h)

theorem alookup_eq_none_of_forall {κ β : Type} [DecidableEq κ] (k : κ)
    (l : List (κ × β)) (h : ∀ p ∈ l, p.1 ≠ k) : alookup k l = none := by
  induction l with
  | nil => rfl
  | cons e es ih =>
    obtain ⟨a, b⟩ := e
    have ha : a ≠ k := h (a, b) (by simp)
    have hka : ¬ (k = a) := fun hk => ha (Eq.symm hk)
    simp only [alookup, if_neg hka]
    exact ih fun p hp => h p (List.mem_cons_of_mem _ hp)

theorem toBytesLE_length (n v : Nat) : (toBytesLE n v).length = n := by
  induction n generalizing v with
  | zero => rfl
  | succ n ih => simp [toBytesLE, ih]

theorem fromBytesLE_toBytesLE (n v : Nat) :
    fromBytesLE (toBytesLE n v) = v % 256 ^ n := by
  induction n generalizing v with
  | zero => simp [toBytesLE, fromBytesLE, Nat.mod_one]
  | succ n ih =>
    simp only [toBytesLE, fromBytesLE, ih]
    rw [pow_succ, mul_comm (256 ^ n) 256, Nat.mod_mul]

theorem fromBytesLE_toBytesLE_of_lt {n v : Nat} (h : v < 256 ^ n) :
    fromBytesLE (toBytesLE n v) = v := by
  rw [fromBytesLE_toBytesLE, Nat.mod_eq_of_lt h]

theorem splitChunks_nil : splitChunks [] = [] := by
  rw [splitChunks]
  simp

theorem splitChunks_cons (m : List Nat) (h : m ≠ []) :
    splitChunks m = m.take 32000 :: splitChunks (m.drop 32000) := by
  rw [splitChunks]
  simp [h]

theorem paintFrame_cons (uid : Nat) (token : List Nat) (r g b x y pid : Nat) :
    paintFrame uid token r g b x y pid =
      0xfe :: x % 256 :: x / 256 % 256 :: y % 256 :: y / 256 % 256 :: r :: g :: b ::
        uid % 256 :: uid / 256 % 256 :: uid / 256 / 256 % 256 ::
        (token ++ toBytesLE 4 pid) := by
  simp [paintFrame, toBytesLE]

/-- C2: the paint encoder emits exactly 31 octets in the documented layout,
the decoder recovers the (uid, x, y, r, g, b, paint_id) tuple from those
octets, and the x = 999, y = 599 corner encodes as bytes
0xe7 0x03 (x) and 0x57 0x02 (y). -/
theorem paint_frame_roundtrip (uid x y r g b pid : Nat) (token : List Nat)
    (huid : uid < 2 ^ 24) (hx : x ≤ 999) (hy : y ≤ 599) (hr : r ≤ 255) (hg : g ≤ 255)
    (hb : b ≤ 255) (htok : token.length = 16) (hpid : pid < 2 ^ 32) :
    (paintFrame uid token r g b x y pid).length = 31 ∧
    decodePaintFrame (paintFrame uid token r g b x y pid) =
      some (uid, x, y, r, g, b, pid) ∧
    (paintFrame uid token r g b 999 599 pid).take 5 =
      [0xfe, 0xe7, 0x03, 0x57, 0x02] := by
  have hx2 : x < 256 ^ 2 := by omega
  have hy2 : y < 256 ^ 2 := by omega
  have huid3 : uid < 256 ^ 3 := by
    have : (2 : Nat) ^ 24 = 256 ^ 3 := by norm_num
    omega
  have hpid4 : pid < 256 ^ 4 := by
    have : (2 : Nat) ^ 32 = 256 ^ 4 := by norm_num
    omega
  refine ⟨?_, ?_, ?_⟩
  · rw [paintFrame_cons]
    simp [htok, toBytesLE_length]
  · rw [paintFrame_cons, decodePaintFrame]
    have hrest : (token ++ toBytesLE 4 pid).length = 20 := by
      simp [htok, toBytesLE_length]
    rw [if_pos ⟨rfl, hrest⟩]
    have hdrop : (token ++ toBytesLE 4 pid).drop 16 = toBytesLE 4 pid := by
      rw [← htok, List.drop_left]
    rw [hdrop]
    have e2 : ∀ v : Nat, [v % 256, v / 256 % 256] = toBytesLE 2 v := by
      intro v; simp [toBytesLE]
    have e3 : [uid % 256, uid / 256 % 256, uid / 256 / 256 % 256] = toBytesLE 3 uid := by
      simp [toBytesLE]
    rw [e2 x, e2 y, e3,
      fromBytesLE_toBytesLE_of_lt hx2, fromBytesLE_toBytesLE_of_lt hy2,
      fromBytesLE_toBytesLE_of_lt huid3, fromBytesLE_toBytesLE_of_lt hpid4]
  · rw [paintFrame_cons]
    norm_num [List.take]

/-- C2 witness: the round-trip theorem applied at a concrete frame. -/
theorem paint_frame_roundtrip_witness :
    (paintFrame 42 (List.replicate 16 7) 255 0 0 999 599 12345).length = 31 ∧
    decodePaintFrame (paintFrame 42 (List.replicate 16 7) 255 0 0 999 599 12345) =
      some (42, 999, 599, 255, 0, 0, 12345) ∧
    (paintFrame 42 (List.replicate 16 7) 255 0 0 999 599 12345).take 5 =
      [0xfe, 0xe7, 0x03, 0x57, 0x02] :=
  paint_frame_roundtrip 42 999 599 255 0 0 12345 (List.replicate 16 7)
    (by norm_num) (by norm_num) (by norm_num) (by norm_num) (by norm_num)
    (by norm_num) (by simp) (by norm_num)

/-- C1: tool.py's sender violates the no-split invariant. With a queue of
1033 whole 31-byte frames (32023 bytes merged, above the 32000-byte limit),
the sender slices the merged buffer at the fixed offset 32000, emitting a
first message of 32000 bytes and a second of 23 bytes; 32000 is not a
multiple of 31, so the 1033rd frame is cut after 8 bytes and its remaining
23 bytes land in the next message. -/
theorem send_paint_data_splits_frame :
    (sentMessages (List.replicate 1033 (List.replicate 31 0))).map List.length =
      [32000, 23] ∧ ¬ (31 ∣ 32000) := by
  constructor
  · have hlen : (get_merged_data (List.replicate 1033 (List.replicate 31 (0 : Nat)))).length
        = 32023 := by
      rw [get_merged_data, List.length_join, List.map_replicate, List.length_replicate,
        List.sum_replicate, smul_eq_mul]
    set m : List Nat := get_merged_data (List.replicate 1033 (List.replicate 31 0)) with hm
    have hne : m ≠ [] := by
      intro h0
      rw [h0] at hlen
      simp at hlen
    have hgt : ¬ (m.length ≤ 32000) := by omega
    have e1 : sentMessages (List.replicate 1033 (List.replicate 31 0)) = splitChunks m := by
      simp only [sentMessages, ← hm]
      rw [if_neg hne, if_neg hgt]
    rw [e1, splitChunks_cons m hne]
    have hne2 : m.drop 32000 ≠ [] := by
      intro h0
      have := congrArg List.length h0
      simp [List.length_drop, hlen] at this
    rw [splitChunks_cons _ hne2]
    have h3 : (m.drop 32000).drop 32000 = [] := by
      apply List.eq_nil_of_length_eq_zero
      simp [List.length_drop, hlen]
    rw [h3, splitChunks_nil]
    simp [List.length_take, List.length_drop, hlen]
  · decide

theorem takeWhile_append_of_all {α : Type} (p : α → Bool) (l₁ l₂ : List α)
    (h : ∀ a ∈ l₁, p a = true) : (l₁ ++ l₂).takeWhile p = l₁ ++ l₂.takeWhile p := by
  induction l₁ with
  | nil => simp
  | cons a l ih =>
    have ha : p a = true := h a (List.mem_cons_self _ _)
    simp only [List.cons_append, List.takeWhile_cons, ha, if_true]
    rw [ih fun b hb => h b (List.mem_cons_of_mem _ hb)]

theorem getD_replicate_of_lt {α : Type} (a d : α) :
    ∀ (n i : Nat), i < n → (List.replicate n a).getD i d = a
  | n + 1, 0, _ => rfl
  | n + 1, i + 1, h => getD_replicate_of_lt a d n i (Nat.lt_of_succ_lt_succ h)

/-- C5: the snapshot parser's bounds guard is off by one. With a body of
exactly 1,800,000 bytes, `max_len = 1799998` and for pixel (999, 599) the
guard compares `idx + 2 = 1799999 > 1799998` and breaks, so the final
coordinate (999, 599) is absent from the returned map even though its three
bytes are present in the body; its neighbour (998, 599) is parsed normally
from offset 3*(1000*599 + 998). -/
theorem fetch_board_snapshot_misses_corner :
    alookup (999, 599) (fetch_board_snapshot (List.replicate 1800000 5)) = none ∧
    ((998, 599), (5, 5, 5)) ∈ fetch_board_snapshot (List.replicate 1800000 5) := by
  have hdl : (List.replicate 1800000 (5 : Nat)).length = 1800000 := List.length_replicate _ _
  constructor
  · apply alookup_eq_none_of_forall
    intro p hp
    rw [fetch_board_snapshot, List.mem_bind] at hp
    obtain ⟨y, hy, hmem⟩ := hp
    rw [boardRow, List.mem_map] at hmem
    obtain ⟨x, hx, rfl⟩ := hmem
    have hpred := List.mem_takeWhile_imp hx
    rw [decide_eq_true_eq, hdl] at hpred
    intro hkey
    have hx999 : x = 999 := congrArg Prod.fst hkey
    have hy599 : y = 599 := congrArg Prod.snd hkey
    subst hx999
    subst hy599
    omega
  · rw [fetch_board_snapshot, List.mem_bind]
    refine ⟨599, by simp, ?_⟩
    rw [boardRow]
    have hall : ∀ x ∈ List.range 999,
        (fun x => decide (599 * 1000 * 3 + x * 3 + 2 ≤
          (List.replicate 1800000 (5 : Nat)).length - 2)) x = true := by
      intro x hx
      rw [List.mem_range] at hx
      rw [decide_eq_true_eq, hdl]
      omega
    have h999 : decide (599 * 1000 * 3 + 999 * 3 + 2 ≤
        (List.replicate 1800000 (5 : Nat)).length - 2) = false := by
      rw [decide_eq_false_iff_not, hdl]
      omega
    have hsplit : List.range 1000 = List.range 999 ++ [999] := by
      have := @List.range_succ 999
      norm_num at this
      exact this
    rw [hsplit, takeWhile_append_of_all _ _ _ hall]
    simp only [List.takeWhile_cons, h999, Bool.false_eq_true, if_false, List.append_nil]
    rw [List.mem_map]
    refine ⟨998, by simp [List.mem_append, List.mem_range], ?_⟩
    rw [getD_replicate_of_lt _ _ _ _ (by norm_num),
      getD_replicate_of_lt _ _ _ _ (by norm_num),
      getD_replicate_of_lt _ _ _ _ (by norm_num)]

theorem insertAsc_perm {α : Type} (key : α → ℚ) (x : α) (l : List α) :
    List.Perm (insertAsc key x l) (x :: l) := by
  induction l with
  | nil => rfl
  | cons y ys ih =>
    rw [insertAsc]
    split
    · rfl
    · exact List.Perm.trans (List.Perm.cons y ih) (List.Perm.swap x y ys)

theorem insertDesc_perm {α : Type} (key : α → ℚ) (x : α) (l : List α) :
    List.Perm (insertDesc key x l) (x :: l) := by
  induction l with
  | nil => rfl
  | cons y ys ih =>
    rw [insertDesc]
    split
    · rfl
    · exact List.Perm.trans (List.Perm.cons y ih) (List.Perm.swap x y ys)

theorem sortAsc_foldl_perm {α : Type} (key : α → ℚ) :
    ∀ (l acc : List α),
      List.Perm (l.foldl (fun acc x => insertAsc key x acc) acc) (acc ++ l)
  | [], acc => by simp
  | x :: xs, acc => by
    refine List.Perm.trans (sortAsc_foldl_perm key xs (insertAsc key x acc)) ?_
    refine List.Perm.trans (List.Perm.append_right xs (insertAsc_perm key x acc)) ?_
    exact List.perm_middle.symm

theorem sortAsc_perm {α : Type} (key : α → ℚ) (l : List α) :
    List.Perm (sortAsc key l) l := by
  simpa using sortAsc_foldl_perm key l []

theorem sortDesc_foldl_perm {α : Type} (key : α → ℚ) :
    ∀ (l acc : List α),
      List.Perm (l.foldl (fun acc x => insertDesc key x acc) acc) (acc ++ l)
  | [], acc => by simp
  | x :: xs, acc => by
    refine List.Perm.trans (sortDesc_foldl_perm key xs (insertDesc key x acc)) ?_
    refine List.Perm.trans (List.Perm.append_right xs (insertDesc_perm key x acc)) ?_
    exact List.perm_middle.symm

theorem sortDesc_perm {α : Type} (key : α → ℚ) (l : List α) :
    List.Perm (sortDesc key l) l := by
  simpa using sortDesc_foldl_perm key l []

theorem lcgStream_length (seed : Nat) : ∀ n, (lcgStream seed n).length = n := by
  intro n
  induction n generalizing seed with
  | zero => rfl
  | succ n ih => simp [lcgStream, ih]

theorem shuffleCoords_perm (seed : Nat) (l : List (Nat × Nat)) :
    List.Perm (shuffleCoords seed l) l := by
  rw [shuffleCoords]
  refine List.Perm.trans (List.Perm.map Prod.fst (sortAsc_perm _ _)) ?_
  rw [List.map_fst_zip]
  rw [lcgStream_length]

theorem get_draw_order_perm (m : DrawMode) (w h : Nat) :
    List.Perm (get_draw_order m w h) (gridCoords w h) := by
  cases m with
  | horizontal => rfl
  | concentric => exact sortAsc_perm _ _
  | random => exact shuffleCoords_perm _ _

theorem layerStep_combined_some {tm : List (Pos × RGB)} {img : ImageData}
    {acc : MergeResult} {xy : Nat × Nat} {k : Pos} {v : RGB}
    (h : alookup k acc.combined = some v) :
    alookup k (layerStep tm img acc xy).combined = some v := by
  rw [layerStep]
  cases htm : alookup (absPos img xy) tm with
  | none => exact h
  | some c =>
    cases hc : alookup (absPos img xy) acc.combined with
    | some _ => exact h
    | none => exact alookup_append_left _ _ _ _ h

theorem layerStep_posIdx_some {tm : List (Pos × RGB)} {img : ImageData}
    {acc : MergeResult} {xy : Nat × Nat} {k : Pos} {i : Nat}
    (h : alookup k acc.posIdx = some i) :
    alookup k (layerStep tm img acc xy).posIdx = some i := by
  rw [layerStep]
  cases htm : alookup (absPos img xy) tm with
  | none => exact h
  | some c =>
    cases hc : alookup (absPos img xy) acc.combined with
    | some _ => exact h
    | none => exact alookup_append_left _ _ _ _ h

theorem foldl_layerStep_combined_some {tm : List (Pos × RGB)} {img : ImageData}
    {k : Pos} {v : RGB} :
    ∀ (coords : List (Nat × Nat)) (acc : MergeResult),
      alookup k acc.combined = some v →
      alookup k ((coords.foldl (layerStep tm img) acc)).combined = some v
  | [], _, h => h
  | xy :: rest, acc, h =>
    foldl_layerStep_combined_some rest (layerStep tm img acc xy)
      (layerStep_combined_some h)

theorem foldl_layerStep_posIdx_some {tm : List (Pos × RGB)} {img : ImageData}
    {k : Pos} {i : Nat} :
    ∀ (coords : List (Nat × Nat)) (acc : MergeResult),
      alookup k acc.posIdx = some i →
      alookup k ((coords.foldl (layerStep tm img) acc)).posIdx = some i
  | [], _, h => h
  | xy :: rest, acc, h =>
    foldl_layerStep_posIdx_some rest (layerStep tm img acc xy)
      (layerStep_posIdx_some h)

theorem layerStep_none_of_ne {tm : List (Pos × RGB)} {img : ImageData}
    {acc : MergeResult} {xy : Nat × Nat} {k : Pos}
    (hne : k ≠ absPos img xy)
    (hc : alookup k acc.combined = none) (hp : alookup k acc.posIdx = none) :
    alookup k (layerStep tm img acc xy).combined = none ∧
    alookup k (layerStep tm img acc xy).posIdx = none := by
  rw [layerStep]
  cases htm : alookup (absPos img xy) tm with
  | none => exact ⟨hc, hp⟩
  | some c =>
    cases hcc : alookup (absPos img xy) acc.combined with
    | some _ => exact ⟨hc, hp⟩
    | none =>
      constructor
      · rw [alookup_append_right _ _ _ hc]
        exact alookup_singleton_ne _ hne
      · rw [alookup_append_right _ _ _ hp]
        exact alookup_singleton_ne _ hne

theorem foldl_layerStep_insert {tm : List (Pos × RGB)} {img : ImageData}
    {k : Pos} {c : RGB} :
    ∀ (coords : List (Nat × Nat)) (acc : MergeResult),
      alookup k acc.combined = none → alookup k acc.posIdx = none →
      k ∈ coords.map (absPos img) → alookup k tm = some c →
      alookup k ((coords.foldl (layerStep tm img) acc)).combined = some c ∧
      alookup k ((coords.foldl (layerStep tm img) acc)).posIdx = some img.config_index := by
  intro coords
  induction coords with
  | nil => intro acc _ _ hmem _; simp at hmem
  | cons xy rest ih =>
    intro acc hc hp hmem htm
    by_cases hk : k = absPos img xy
    · have hstep : (layerStep tm img acc xy).combined = acc.combined ++ [(absPos img xy, c)] ∧
          (layerStep tm img acc xy).posIdx = acc.posIdx ++ [(absPos img xy, img.config_index)] := by
        rw [layerStep]
        rw [← hk, htm, hc]
        exact ⟨rfl, rfl⟩
      have hc' : alookup k (layerStep tm img acc xy).combined = some c := by
        rw [hstep.1, alookup_append_right _ _ _ hc, ← hk]
        exact alookup_singleton_self _ _
      have hp' : alookup k (layerStep tm img acc xy).posIdx = some img.config_index := by
        rw [hstep.2, alookup_append_right _ _ _ hp, ← hk]
        exact alookup_singleton_self _ _
      exact ⟨foldl_layerStep_combined_some rest _ hc',
        foldl_layerStep_posIdx_some rest _ hp'⟩
    · have hmem' : k ∈ rest.map (absPos img) := by
        rcases List.mem_map.mp hmem with ⟨xy', hxy', hval⟩
        rcases List.mem_cons.mp hxy' with h1 | h1
        · exact absurd (by rw [h1] at hval; exact hval.symm) hk
        · exact List.mem_map.mpr ⟨xy', h1, hval⟩
      obtain ⟨hc', hp'⟩ := layerStep_none_of_ne hk hc hp
      exact ih (layerStep tm img acc xy) hc' hp' hmem' htm

theorem btm_lookup_shape {pixels : List RGBA} {w h : Nat} {sx sy : Int}
    {flag : Bool} {k : Pos} {c : RGB}
    (hl : alookup k (build_target_map pixels w h sx sy flag) = some c) :
    ∃ xy ∈ gridCoords w h, k = (sx + (xy.1 : Int), sy + (xy.2 : Int)) := by
  have hmem := alookup_mem hl
  rw [build_target_map] at hmem
  obtain ⟨xy, hxy, hstep⟩ := List.mem_filterMap.mp hmem
  refine ⟨xy, hxy, ?_⟩
  cases hg : pixels.get? (xy.2 * w + xy.1) with
  | none => rw [hg] at hstep; exact absurd hstep (by simp)
  | some p =>
    obtain ⟨r, g, b, a⟩ := p
    rw [hg] at hstep
    simp only at hstep
    split at hstep
    · exact absurd hstep (by simp)
    · split at hstep
      · exact absurd hstep (by simp)
      · split at hstep
        · obtain ⟨hkc, -⟩ := Prod.mk.injEq .. ▸ Option.some.inj hstep
          exact hkc.symm
        · exact absurd hstep (by simp)

theorem sortDesc_pair {A B : ImageData} (h : B.weight < A.weight) :
    sortDesc (fun i => i.weight) [B, A] = [A, B] ∧
    sortDesc (fun i => i.weight) [A, B] = [A, B] := by
  constructor
  · simp [sortDesc, insertDesc, h]
  · simp [sortDesc, insertDesc, not_lt_of_gt h]

theorem merge_pair_ba {A B : ImageData} (h : B.weight < A.weight) :
    merge_target_maps [B, A] = addLayer (addLayer emptyMerge A) B := by
  rw [merge_target_maps, (sortDesc_pair h).1]
  rfl

theorem merge_pair_ab {A B : ImageData} (h : B.weight < A.weight) :
    merge_target_maps [A, B] = addLayer (addLayer emptyMerge A) B := by
  rw [merge_target_maps, (sortDesc_pair h).2]
  rfl

theorem addLayer_claims (img : ImageData) {k : Pos} {c : RGB}
    (acc : MergeResult)
    (hc : alookup k acc.combined = none) (hp : alookup k acc.posIdx = none)
    (hclaim : alookup k (btmOf img) = some c) :
    alookup k (addLayer acc img).combined = some c ∧
    alookup k (addLayer acc img).posIdx = some img.config_index := by
  rw [addLayer]
  obtain ⟨xy, hxy, hk⟩ := btm_lookup_shape hclaim
  have hmem : k ∈ (get_draw_order img.draw_mode img.width img.height).map (absPos img) := by
    refine List.mem_map.mpr ⟨xy, ?_, hk.symm⟩
    exact ((get_draw_order_perm img.draw_mode img.width img.height).mem_iff).mpr hxy
  exact foldl_layerStep_insert _ acc hc hp hmem hclaim

theorem addLayer_preserves (img : ImageData) {k : Pos} {c : RGB} {i : Nat}
    (acc : MergeResult)
    (hc : alookup k acc.combined = some c) (hp : alookup k acc.posIdx = some i) :
    alookup k (addLayer acc img).combined = some c ∧
    alookup k (addLayer acc img).posIdx = some i := by
  rw [addLayer]
  exact ⟨foldl_layerStep_combined_some _ acc hc, foldl_layerStep_posIdx_some _ acc hp⟩

/-- C4: overlap resolution by weight. When two enabled layers A and B both
claim a canvas coordinate c (their per-layer target maps both contain c)
and B's weight is below A's, the combined target map produced by
`merge_target_maps` assigns c A's color and records A as the owning layer,
in whichever order the two layers appear in the configuration; the
lower-weight layer never overwrites the already-claimed coordinate. -/
theorem merge_weight_priority (A B : ImageData) (c : Pos) (colA colB : RGB)
    (hw : B.weight < A.weight)
    (hA : alookup c (btmOf A) = some colA)
    (hB : alookup c (btmOf B) = some colB) :
    alookup c (merge_target_maps [B, A]).combined = some colA ∧
    alookup c (merge_target_maps [B, A]).posIdx = some A.config_index ∧
    alookup c (merge_target_maps [A, B]).combined = some colA ∧
    alookup c (merge_target_maps [A, B]).posIdx = some A.config_index := by
  have hafterA := addLayer_claims A emptyMerge rfl rfl hA
  have hfinal := addLayer_preserves B (addLayer emptyMerge A) hafterA.1 hafterA.2
  rw [merge_pair_ba hw, merge_pair_ab hw]
  exact ⟨hfinal.1, hfinal.2, hfinal.1, hfinal.2⟩

theorem alookup_dupdate_self {κ β : Type} [DecidableEq κ] (k : κ) (f : β → β) :
    ∀ l : List (κ × β), alookup k (dupdate k f l) = (alookup k l).map f := by
  intro l
  induction l with
  | nil => rfl
  | cons e es ih =>
    obtain ⟨a, b⟩ := e
    by_cases hk : k = a
    · simp [dupdate, alookup, hk]
    · simp only [dupdate, alookup, if_neg hk]
      exact ih

theorem alookup_dupdate_ne {κ β : Type} [DecidableEq κ] {k k' : κ} (f : β → β)
    (hne : k' ≠ k) :
    ∀ l : List (κ × β), alookup k' (dupdate k f l) = alookup k' l := by
  intro l
  induction l with
  | nil => rfl
  | cons e es ih =>
    obtain ⟨a, b⟩ := e
    by_cases hk : k = a
    · subst hk
      simp [dupdate, alookup, if_neg hne, hne]
    · by_cases hk' : k' = a
      · simp [dupdate, alookup, if_neg hk, hk']
      · simp only [dupdate, alookup, if_neg hk, if_neg hk']
        exact ih

theorem alookup_dupdate_last_success {k k' : Nat} (g : TokState → TokState)
    (hg : ∀ b, (g b).last_success = b.last_success) (l : List (Nat × TokState)) :
    (alookup k' (dupdate k g l)).map TokState.last_success =
      (alookup k' l).map TokState.last_success := by
  by_cases hk : k' = k
  · subst hk
    rw [alookup_dupdate_self]
    cases alookup k' l with
    | none => rfl
    | some st => simp [hg]
  · rw [alookup_dupdate_ne g hk]

theorem uid_not_ready_of_cool (users : List UserCred) (states : List (Nat × TokState))
    (uid : Nat) (tq cd : ℚ)
    (h : ∀ st, alookup uid states = some st → ¬ (cd ≤ tq - st.last_success)) :
    uid ∉ (ready_tokens users states tq cd).map UserCred.uid := by
  intro hmem
  obtain ⟨u, hu, huid⟩ := List.mem_map.mp hmem
  rw [ready_tokens] at hu
  obtain ⟨-, hpred⟩ := List.mem_filter.mp hu
  rw [huid] at hpred
  cases hst : alookup uid states with
  | none => rw [hst] at hpred; simp at hpred
  | some st =>
    rw [hst] at hpred
    simp only [decide_eq_true_eq] at hpred
    exact h st hst hpred

theorem mem_map_ready_sorted_iff (users : List UserCred)
    (states : List (Nat × TokState)) (tq cd : ℚ) (uid : Nat) :
    uid ∈ (ready_sorted users states tq cd).map UserCred.uid ↔
      uid ∈ (ready_tokens users states tq cd).map UserCred.uid :=
  ((sortAsc_perm _ _).map UserCred.uid).mem_iff

theorem not_ready_of_last_eq (users : List UserCred) (states : List (Nat × TokState))
    (uid : Nat) (now tq cd : ℚ)
    (hl : ∀ st, alookup uid states = some st → st.last_success = now)
    (hcool : tq - now < cd) :
    uid ∉ (ready_sorted users states tq cd).map UserCred.uid := by
  rw [mem_map_ready_sorted_iff]
  apply uid_not_ready_of_cool
  intro st hst
  rw [hl st hst]
  exact not_le.mpr (by linarith)

/-- C3: cooldown starts at enqueue. An assignment at monotonic time `now`
stamps the chosen credential's last_success with `now` at the moment the
frame is queued, and for every later readiness query at time `tq` with
`tq - now < cooldown` the ready-credential selection (filter plus
ascending-last_success sort) excludes that uid — and still excludes it
after a server success result for any paint_id is processed, because the
0xff handler never touches last_success. -/
theorem cooldown_starts_at_enqueue (users : List UserCred) (s : SchedState)
    (user : UserCred) (pos : Pos) (color : RGB) (now cd tq : ℚ) (pid : Nat)
    (hcool : tq - now < cd) :
    (∀ st, alookup user.uid s.token_states = some st →
        alookup user.uid (assignStep s user pos color now cd).token_states =
          some { st with last_success := now }) ∧
    user.uid ∉ (ready_sorted users
        (assignStep s user pos color now cd).token_states tq cd).map UserCred.uid ∧
    user.uid ∉ (ready_sorted users
        (handleSuccessResult (assignStep s user pos color now cd) pid).token_states
        tq cd).map UserCred.uid := by
  set s' := assignStep s user pos color now cd with hs'
  have hupd : alookup user.uid s'.token_states =
      (alookup user.uid s.token_states).map fun st => { st with last_success := now } := by
    rw [hs', assignStep]
    exact alookup_dupdate_self _ _ _
  have hl' : ∀ st, alookup user.uid s'.token_states = some st →
      st.last_success = now := by
    intro st hst
    rw [hupd] at hst
    cases h0 : alookup user.uid s.token_states with
    | none => rw [h0] at hst; exact Option.noConfusion hst
    | some st0 =>
      rw [h0] at hst
      rw [← Option.some.inj hst]
  refine ⟨?_, ?_, ?_⟩
  · intro st hst
    rw [hupd, hst]
    rfl
  · exact not_ready_of_last_eq users _ user.uid now tq cd hl' hcool
  · have hpres : (alookup user.uid
        (handleSuccessResult s' pid).token_states).map TokState.last_success =
        (alookup user.uid s'.token_states).map TokState.last_success := by
      rw [handleSuccessResult]
      cases htask : alookup pid s'.active_tasks with
      | none => rfl
      | some task =>
        dsimp only
        exact alookup_dupdate_last_success
          (fun st => { st with fail_count := 0, invalid_count := 0 }) (fun b => rfl) _
    apply not_ready_of_last_eq users _ user.uid now tq cd _ hcool
    intro st hst
    have : (alookup user.uid
        (handleSuccessResult s' pid).token_states).map TokState.last_success =
        some st.last_success := by rw [hst]; rfl
    rw [hpres] at this
    cases h1 : alookup user.uid s'.token_states with
    | none => rw [h1] at this; exact Option.noConfusion this
    | some st1 =>
      rw [h1] at this
      dsimp only [Option.map] at this
      rw [← Option.some.inj this]
      exact hl' st1 h1

/-- C3 witness: the exclusion applied at a concrete state and times
(enqueue at t = 10, query at t' = 25, cooldown 30). -/
theorem cooldown_starts_at_enqueue_witness :
    (1 : Nat) ∉ (ready_sorted [⟨1, []⟩]
      (assignStep ⟨[(1, ⟨0, 0, 0⟩)], [], [], [], [], [], 0, 0, 0⟩ ⟨1, []⟩
        (5, 5) (1, 2, 3) 10 30).token_states 25 30).map UserCred.uid :=
  (cooldown_starts_at_enqueue [⟨1, []⟩] ⟨[(1, ⟨0, 0, 0⟩)], [], [], [], [], [], 0, 0, 0⟩
    ⟨1, []⟩ (5, 5) (1, 2, 3) 10 30 25 0 (by norm_num)).2.1

theorem dupdate_map_uid_last (k : Nat) (g : TokState → TokState)
    (hg : ∀ b, (g b).last_success = b.last_success) :
    ∀ l : List (Nat × TokState),
      (dupdate k g l).map (fun e => (e.1, e.2.last_success)) =
        l.map (fun e => (e.1, e.2.last_success)) := by
  intro l
  induction l with
  | nil => rfl
  | cons e es ih =>
    obtain ⟨a, b⟩ := e
    by_cases hk : k = a
    · simp [dupdate, hk, hg]
    · simp only [dupdate, if_neg hk, List.map_cons]
      rw [ih]

/-- C10: the shared success counter advances at enqueue, not at
confirmation. Each scheduler assignment bumps both stats counters and
appends exactly one frame to the paint queue; the receiver's handler for a
success paint result (0xff with status 0xef) leaves stats_sent,
stats_success, the paint queue, the position locks and every credential's
last_success unchanged, so the success rate derived from stats counts
enqueued frames, not server-confirmed writes. -/
theorem success_counted_at_enqueue (s : SchedState) (user : UserCred) (pos : Pos)
    (color : RGB) (now cd : ℚ) (pid : Nat) :
    (assignStep s user pos color now cd).stats_sent = s.stats_sent + 1 ∧
    (assignStep s user pos color now cd).stats_success = s.stats_success + 1 ∧
    (assignStep s user pos color now cd).paint_queue = s.paint_queue ++
      [paintFrame user.uid user.token color.1 color.2.1 color.2.2
        pos.1.toNat pos.2.toNat s.global_paint_id] ∧
    (handleSuccessResult s pid).stats_sent = s.stats_sent ∧
    (handleSuccessResult s pid).stats_success = s.stats_success ∧
    (handleSuccessResult s pid).paint_queue = s.paint_queue ∧
    (handleSuccessResult s pid).pos_locks = s.pos_locks ∧
    ((handleSuccessResult s pid).token_states.map fun e => (e.1, e.2.last_success)) =
      (s.token_states.map fun e => (e.1, e.2.last_success)) := by
  have hfields : (handleSuccessResult s pid).stats_sent = s.stats_sent ∧
      (handleSuccessResult s pid).stats_success = s.stats_success ∧
      (handleSuccessResult s pid).paint_queue = s.paint_queue ∧
      (handleSuccessResult s pid).pos_locks = s.pos_locks ∧
      ((handleSuccessResult s pid).token_states.map fun e => (e.1, e.2.last_success)) =
        (s.token_states.map fun e => (e.1, e.2.last_success)) := by
    rw [handleSuccessResult]
    cases htask : alookup pid s.active_tasks with
    | none => exact ⟨rfl, rfl, rfl, rfl, rfl⟩
    | some task =>
      refine ⟨rfl, rfl, rfl, rfl, ?_⟩
      dsimp only
      exact dupdate_map_uid_last task.uid
        (fun st => { st with fail_count := 0, invalid_count := 0 })
        (fun b => rfl) s.token_states
  exact ⟨rfl, rfl, rfl, hfields.1, hfields.2.1, hfields.2.2.1, hfields.2.2.2.1,
    hfields.2.2.2.2⟩

/-- C6: the `ignore_semitransparent` flag is honored by `build_target_map`
when a config is passed, but `merge_target_maps` — the path the running
painter uses — calls `build_target_map` without the config, so a
semi-transparent pixel is included in the composed target map even when
the flag is set; alpha 0 is excluded on every path. -/
theorem merge_ignores_semitransparent_flag :
    alookup ((0 : Int), (0 : Int)) (merge_target_maps [semiLayer]).combined =
      some (1, 2, 3) ∧
    alookup ((0 : Int), (0 : Int))
      (build_target_map [(1, 2, 3, 128)] 1 1 0 0 true) = none ∧
    alookup ((0 : Int), (0 : Int))
      (build_target_map [(1, 2, 3, 0)] 1 1 0 0 false) = none := by
  refine ⟨?_, ?_, ?_⟩ <;> decide

/-- C7 counterexample: the scan sequence is grouped by draw mode
(horizontal, then concentric, then random) before weight is considered.
With layer A of weight 2 (concentric, coordinate (0,0)) and layer B of
weight 1 (horizontal, coordinate (1,0)), `target_positions` places B's
coordinate before A's in either configuration order, so the higher-weight
layer's coordinates do not precede the lower-weight layer's. -/
theorem targetPositions_not_weight_ordered :
    (1 : ℚ) < 2 ∧
    alookup ((0 : Int), (0 : Int)) (btmOf concA2) = some (10, 20, 30) ∧
    alookup ((1 : Int), (0 : Int)) (btmOf horizB1) = some (40, 50, 60) ∧
    targetPositions [concA2, horizB1] = [(1, 0), (0, 0)] ∧
    targetPositions [horizB1, concA2] = [(1, 0), (0, 0)] := by
  refine ⟨by norm_num, ?_, ?_, ?_, ?_⟩ <;> decide

theorem layerStep_modeList_append (m : DrawMode) {tm : List (Pos × RGB)}
    {img : ImageData} (acc : MergeResult) (xy : Nat × Nat) :
    ∃ s, modeList m (layerStep tm img acc xy) = modeList m acc ++ s := by
  rw [layerStep]
  cases alookup (absPos img xy) tm with
  | none => exact ⟨[], by simp⟩
  | some c =>
    cases alookup (absPos img xy) acc.combined with
    | some _ => exact ⟨[], by simp⟩
    | none =>
      cases m with
      | horizontal => exact ⟨_, rfl⟩
      | concentric => exact ⟨_, rfl⟩
      | random => exact ⟨_, rfl⟩

theorem foldl_layerStep_modeList_append (m : DrawMode) {tm : List (Pos × RGB)}
    {img : ImageData} :
    ∀ (coords : List (Nat × Nat)) (acc : MergeResult),
      ∃ s, modeList m ((coords.foldl (layerStep tm img) acc)) = modeList m acc ++ s
  | [], acc => ⟨[], by simp⟩
  | xy :: rest, acc => by
    obtain ⟨s1, hs1⟩ := layerStep_modeList_append m acc xy
    obtain ⟨s2, hs2⟩ := foldl_layerStep_modeList_append m rest (layerStep tm img acc xy)
    exact ⟨s1 ++ s2, by rw [List.foldl_cons, hs2, hs1, List.append_assoc]⟩

theorem addLayer_modeList_append (m : DrawMode) (acc : MergeResult) (img : ImageData) :
    ∃ s, modeList m (addLayer acc img) = modeList m acc ++ s := by
  rw [addLayer]
  exact foldl_layerStep_modeList_append m _ acc

theorem visited_cons_step (L start steps n : Nat) (tail : List Nat)
    (hlen : tail.length = n)
    (htail : tail = (List.range n).map (fun i => (start + (steps + 1) + i) % L)) :
    (start + steps) % L :: tail =
      (List.range (n + 1)).map (fun i => (start + steps + i) % L) := by
  subst htail
  rw [List.range_succ_eq_map, List.map_cons, List.map_map]
  refine congrArg₂ List.cons (by simp) ?_
  apply List.map_congr_left
  intro i hi
  simp only [Function.comp_apply]
  congr 1
  omega

theorem scanLoop_visited_step {L start steps : Nat} (p : SchedState × Nat × List Nat)
    (hp1 : p.2.1 = (steps + 1) + p.2.2.length)
    (hp2 : p.2.2 = (List.range p.2.2.length).map (fun i => (start + (steps + 1) + i) % L)) :
    p.2.1 = steps + ((start + steps) % L :: p.2.2).length ∧
    (start + steps) % L :: p.2.2 =
      (List.range ((start + steps) % L :: p.2.2).length).map
        (fun i => (start + steps + i) % L) := by
  constructor
  · rw [hp1, List.length_cons]
    omega
  · rw [List.length_cons]
    exact visited_cons_step L start steps p.2.2.length p.2.2 rfl hp2

theorem scanLoop_visited (positions : List Pos) (tmap : List (Pos × RGB))
    (now cd : ℚ) (start : Nat) :
    ∀ (budget steps : Nat) (ready : List UserCred) (st : SchedState),
      (scanLoop positions tmap now cd start budget steps ready st).2.1 =
        steps + (scanLoop positions tmap now cd start budget steps ready st).2.2.length ∧
      (scanLoop positions tmap now cd start budget steps ready st).2.2 =
        (List.range ((scanLoop positions tmap now cd start budget steps ready st).2.2.length)).map
          (fun i => (start + steps + i) % positions.length) := by
  intro budget
  induction budget with
  | zero =>
    intro steps ready st
    simp [scanLoop]
  | succ b ih =>
    intro steps ready st
    cases ready with
    | nil => simp [scanLoop]
    | cons user rest =>
      simp only [scanLoop]
      split
      · exact scanLoop_visited_step _ (ih (steps + 1) (user :: rest) st).1
          (ih (steps + 1) (user :: rest) st).2
      · split
        · exact scanLoop_visited_step _ (ih (steps + 1) (user :: rest) st).1
            (ih (steps + 1) (user :: rest) st).2
        · split
          · split
            · exact scanLoop_visited_step _ (ih (steps + 1) (user :: rest) st).1
                (ih (steps + 1) (user :: rest) st).2
            · exact scanLoop_visited_step _ (ih (steps + 1) rest _).1
                (ih (steps + 1) rest _).2
          · exact scanLoop_visited_step _ (ih (steps + 1) rest _).1
              (ih (steps + 1) rest _).2

/-- C4 witness: two overlapping one-pixel layers of weights 2 and 1; the
combined map keeps the weight-2 color. -/
theorem merge_weight_priority_witness :
    alookup ((0 : Int), (0 : Int)) (merge_target_maps [layerB1, layerA2]).combined =
      some (9, 9, 9) :=
  (merge_weight_priority layerA2 layerB1 ((0 : Int), (0 : Int)) (9, 9, 9) (7, 7, 7)
    (by decide) (by decide) (by decide)).1

/-- C7 (amended): the scan sequence groups the per-layer coordinate lists
by draw mode in the fixed order horizontal, concentric, random; descending
weight governs the order only within a mode group — for layers A, B of the
same mode with B.weight < A.weight, the group's list starts with exactly
the coordinates A claims when composed alone, with B's additions appended
after them. Each scheduler iteration examines consecutive indices of
target_positions starting at scan_cursor and wrapping modulo its length,
and advances the cursor by the number of scanned steps modulo the length. -/
theorem scan_sequence_structure (A B : ImageData) (m : DrawMode)
    (hA : A.draw_mode = m) (hB : B.draw_mode = m) (hw : B.weight < A.weight) :
    (∃ tail, modeList m (merge_target_maps [B, A]) =
        modeList m (addLayer emptyMerge A) ++ tail) ∧
    (∀ images : List ImageData, targetPositions images =
        (merge_target_maps images).horiz ++ (merge_target_maps images).conc ++
          (merge_target_maps images).rand) ∧
    (∀ (positions : List Pos) (tmap : List (Pos × RGB)) (now cd : ℚ)
        (start budget steps : Nat) (ready : List UserCred) (st : SchedState),
      (scanLoop positions tmap now cd start budget steps ready st).2.2 =
        (List.range
          ((scanLoop positions tmap now cd start budget steps ready st).2.2.length)).map
          (fun i => (start + steps + i) % positions.length)) ∧
    (∀ (positions : List Pos) (tmap : List (Pos × RGB)) (now cd : ℚ)
        (cursor : Nat) (ready : List UserCred) (st : SchedState),
      0 < positions.length →
      (schedulerIteration positions tmap now cd cursor ready st).2 =
        (cursor + (scanLoop positions tmap now cd cursor
          (max_steps positions.length ready.length) 0 ready st).2.1) %
          positions.length) := by
  refine ⟨?_, ?_, ?_, ?_⟩
  · rw [merge_pair_ba hw]
    exact addLayer_modeList_append m _ B
  · intro images
    rfl
  · intro positions tmap now cd start budget steps ready st
    exact (scanLoop_visited positions tmap now cd start budget steps ready st).2
  · intro positions tmap now cd cursor ready st hpos
    simp only [schedulerIteration, if_pos hpos]

/-- C7 witness: the amended structure applied to two same-mode layers of
weights 2 and 1. -/
theorem scan_sequence_structure_witness :
    ∃ tail, modeList DrawMode.horizontal (merge_target_maps [layerB1, layerA2]) =
      modeList DrawMode.horizontal (addLayer emptyMerge layerA2) ++ tail :=
  (scan_sequence_structure layerA2 layerB1 DrawMode.horizontal rfl rfl (by decide)).1

/-- C8 counterexample: at frame 40 of `oscFrames` (maximum last advanced at
frame 30, window 10, minimum 20 samples) the code declares steady state
because no linear trend is present, even though the coefficient of
variation over the window is far above the 35% threshold — the CV bound
and the trend check are combined with OR, not AND. -/
theorem steady_state_despite_high_cv :
    steadyDecision 20 10 oscFrames 40 30 = true ∧
    volatilityOk (oscFrames.drop (oscFrames.length - min 10 oscFrames.length)) = false ∧
    hasTrend (oscFrames.drop (oscFrames.length - min 10 oscFrames.length)) = false := by
  have hlen : oscFrames.length = 40 := rfl
  have h30 : oscFrames.length - min 10 oscFrames.length = 30 := by
    rw [hlen]
    omega
  have hrecent : oscFrames.drop (oscFrames.length - min 10 oscFrames.length) =
      ([90, 10, 90, 10, 90, 90, 10, 90, 10, 90] : List ℚ) := by
    rw [h30, oscFrames]
    rfl
  have hlenr : ([90, 10, 90, 10, 90, 90, 10, 90, 10, 90] : List ℚ).length = 10 := rfl
  have hmean : meanQ ([90, 10, 90, 10, 90, 90, 10, 90, 10, 90] : List ℚ) = 58 := by
    rw [meanQ, hlenr]
    norm_num [List.sum_cons]
  have hvar : varianceQ ([90, 10, 90, 10, 90, 90, 10, 90, 10, 90] : List ℚ) = 1536 := by
    rw [varianceQ, hlenr]
    simp only [hmean]
    norm_num [List.map_cons, List.map_nil, List.sum_cons]
  have hvol : volatilityOk ([90, 10, 90, 10, 90, 90, 10, 90, 10, 90] : List ℚ) = false := by
    rw [volatilityOk, hlenr]
    simp only [hmean, hvar]
    norm_num [volatility_threshold]
  have hr10 : List.range 10 = [0, 1, 2, 3, 4, 5, 6, 7, 8, 9] := rfl
  have hnum : slopeNum ([90, 10, 90, 10, 90, 90, 10, 90, 10, 90] : List ℚ) = 0 := by
    rw [slopeNum, hlenr, hr10]
    simp only [hmean]
    norm_num [List.zip_cons_cons, List.map_cons, List.map_nil, List.sum_cons]
  have htrend : hasTrend ([90, 10, 90, 10, 90, 90, 10, 90, 10, 90] : List ℚ) = false := by
    rw [hasTrend, hlenr]
    simp only [hmean, hnum]
    split
    · split
      · split
        · split
          · norm_num
          · rfl
        · rfl
      · rfl
    · rfl
  refine ⟨?_, ?_, ?_⟩
  · simp only [steadyDecision]
    rw [hrecent, hvol, htrend]
    norm_num
  · rw [hrecent, hvol]
  · rw [hrecent, htrend]

/-- C8 (amended): the estimator samples every max(0.5 s, 0.2·cooldown) and
declares steady state exactly when at least max(20, ⌊60 s / interval⌋)
samples are in, the maximum occupancy has not advanced for
max(10, ⌊30 s / interval⌋) samples, and EITHER the CV over that window is
below the occupancy-dependent threshold OR no clear linear trend is
present (a trend blocks the decision only when the CV check also fails);
the safety timeout max(180, min(600, 20·cooldown)) lies in [180 s, 600 s]. -/
theorem steady_state_decision_characterization (user_cd : ℚ)
    (minF window frame_idx maxFrame : Nat) (frames : List ℚ) :
    (steadyDecision minF window frames frame_idx maxFrame = true ↔
      (minF ≤ frame_idx ∧ window ≤ frame_idx - maxFrame ∧
        (volatilityOk (frames.drop (frames.length - min window frames.length)) = true ∨
         hasTrend (frames.drop (frames.length - min window frames.length)) = false))) ∧
    frame_interval user_cd = max (1 / 2) (user_cd * (1 / 5)) ∧
    180 ≤ max_timeout user_cd ∧ max_timeout user_cd ≤ 600 ∧
    min_frames_before_check (frame_interval user_cd) =
      max 20 (Int.toNat ⌊(60 : ℚ) / frame_interval user_cd⌋) ∧
    steady_window_frames (frame_interval user_cd) =
      max 10 (Int.toNat ⌊(30 : ℚ) / frame_interval user_cd⌋) := by
  refine ⟨?_, rfl, le_max_left _ _, max_le (by norm_num) (min_le_left _ _), rfl, rfl⟩
  rw [steadyDecision]
  by_cases h1 : frame_idx < minF
  · simp only [if_pos h1]
    constructor
    · intro h
      exact absurd h (by simp)
    · intro h
      omega
  · simp only [if_neg h1, Bool.and_eq_true, Bool.or_eq_true, decide_eq_true_eq,
      Bool.not_eq_eq_eq_not, Bool.not_true]
    constructor
    · intro h
      exact ⟨Nat.le_of_not_lt h1, h.1, h.2⟩
    · intro h
      exact ⟨h.2.1, h.2.2⟩

/-- C9: for 0.01 < p < 0.99, positive token count, efficiency and areas,
the estimator returns the opposing effective rate N·η·(1−p)/p and exactly
the four interpretations obtained by dividing that rate by 1, η, 0.5 and
η·overlap/enemy; for p outside (0.01, 0.99) it returns None. -/
theorem calculate_enemy_tokens_spec (p user_cd N Ea Oa eta : ℚ)
    (hp1 : 1 / 100 < p) (hp2 : p < 99 / 100) (hN : 0 < N) (heta : 0 < eta)
    (hEa : 0 < Ea) (hOa : 0 < Oa) :
    calculate_enemy_tokens p user_cd N Ea Oa eta =
      some ⟨N * eta * (1 - p) / p,
            N * eta * (1 - p) / p / eta,
            N * eta * (1 - p) / p / 1,
            N * eta * (1 - p) / p / (1 / 2),
            some (N * eta * (1 - p) / p / (eta * (Oa / Ea)))⟩ ∧
    (∀ q : ℚ, q ≤ 1 / 100 ∨ 99 / 100 ≤ q →
      calculate_enemy_tokens q user_cd N Ea Oa eta = none) := by
  constructor
  · rw [calculate_enemy_tokens]
    rw [if_neg (by push_neg; exact ⟨hp1, hp2⟩)]
    have hscan : (0 : ℚ) < eta * (Oa / Ea) := mul_pos heta (div_pos hOa hEa)
    simp only [if_pos heta, if_pos hEa, if_pos hscan]
  · intro q hq
    rw [calculate_enemy_tokens, if_pos hq]

/-- C9 witness: the out-of-range branch at p = 0.01 exactly. -/
theorem calculate_enemy_tokens_spec_witness :
    calculate_enemy_tokens (1 / 100) 30 50 100 50 (9 / 10) = none :=
  (calculate_enemy_tokens_spec (1 / 3) 30 50 100 50 (9 / 10) (by norm_num) (by norm_num)
    (by norm_num) (by norm_num) (by norm_num) (by norm_num)).2 (1 / 100) (Or.inl le_rfl)
